import Mathlib

/-!
Verification development for the gpt-discord-bot repository (src/main.rs).

The bot keeps one conversation history per provider (HISTORY for the
primary chat flow, MISTRAL_HISTORY for the alternate flow), enforces a
token budget on the serialized history by evicting the turn at index 1,
dispatches a completion request, cleans up the reply, and chunks the
outgoing text for the transport limit.

Text is modelled as List Char (the Rust code collects chars for the
operations that matter; byte lengths are modelled explicitly via the
UTF-8 size of each char).  The composition serialize-then-tokenize
(serde_json::to_string followed by tiktoken encode) is modelled as an
abstract count function on histories, since the tokenizer is an external
library.  Remote dispatch results are passed in as data.  Rust panics
(Vec::remove out of bounds, indexing an empty choices array, unwrap of a
missing content field) are modelled as explicit panic outcomes.
-/

/-- Converts a string literal to the character list used by the model. -/
def str (s : String) : List Char := s.data

/-- DISCORD_CHAR_LIMIT constant from main.rs line 28. -/
def DISCORD_CHAR_LIMIT : Nat := 1900

/-- Characters accepted by the author-name pattern of sanitize_input
(main.rs line 138 and the filter at line 148): ASCII alphanumerics,
underscore and hyphen. -/
def isAllowedChar (c : Char) : Bool := c.isAlphanum || c == '_' || c == '-'

/-- Whole-string match of the anchored regex used by sanitize_input
(main.rs line 138): between 1 and 64 characters, all from the allowed
class. -/
def matchesNamePattern (s : List Char) : Bool :=
  decide (1 ≤ s.length) && decide (s.length ≤ 64) && s.all isAllowedChar

/-- sanitize_input from main.rs lines 136 to 153: if the input matches
the anchored pattern it is returned unchanged, otherwise the characters
outside the allowed class are filtered out. -/
def sanitize_input (input : List Char) : List Char :=
  if matchesNamePattern input then input else input.filter isAllowedChar

/-- Role of a stored turn (system, user or assistant message variants of
the provider request message type). -/
inductive Role where
  | system
  | user
  | assistant
deriving DecidableEq

/-- One stored turn: role, content, and the optional author name (set
only on user turns of the primary chat flow). -/
structure Turn where
  role : Role
  content : List Char
  name : Option (List Char)
deriving DecidableEq

/-- Inner loop of the budget enforcement (main.rs lines 321 to 336) with
the pinned head x held fixed.  The abstract count function stands for
serializing the messages and counting tokens.  While the count of the
whole history exceeds the ceiling, the element at index 1 is removed
(history.remove(1)); on a history of length 1 that removal is out of
bounds and Rust panics, modelled by none. -/
def enforceFrom (count : List Turn → Nat) (ceiling : Nat) (x : Turn) :
    List Turn → Option (List Turn)
  | [] => if count [x] ≤ ceiling then some [x] else none
  | y :: rest =>
    if count (x :: y :: rest) ≤ ceiling then some (x :: y :: rest)
    else enforceFrom count ceiling x rest

/-- Budget enforcement loop of main.rs lines 321 to 336 on a whole
history.  A some result is the history left when the loop exits; none
means the loop hit the out-of-bounds removal panic. -/
def enforceLoop (count : List Turn → Nat) (ceiling : Nat) :
    List Turn → Option (List Turn)
  | [] => if count [] ≤ ceiling then some [] else none
  | x :: rest => enforceFrom count ceiling x rest

theorem enforceFrom_head (count : List Turn → Nat) (ceiling : Nat) (x : Turn) :
    ∀ (rest : List Turn) (h : List Turn),
      enforceFrom count ceiling x rest = some h → ∃ r, h = x :: r := by
  intro rest
  induction rest with
  | nil =>
    intro h hh
    simp only [enforceFrom] at hh
    split at hh
    · exact ⟨[], by simpa using hh.symm⟩
    · exact absurd hh (by simp)
  | cons y rest ih =>
    intro h hh
    simp only [enforceFrom] at hh
    split at hh
    · exact ⟨y :: rest, by simpa using hh.symm⟩
    · exact ih h hh

theorem enforceFrom_length (count : List Turn → Nat) (ceiling : Nat) (x : Turn) :
    ∀ (rest : List Turn) (h : List Turn),
      enforceFrom count ceiling x rest = some h → h.length ≤ rest.length + 1 := by
  intro rest
  induction rest with
  | nil =>
    intro h hh
    simp only [enforceFrom] at hh
    split at hh
    · simp [← Option.some_inj.mp hh]
    · exact absurd hh (by simp)
  | cons y rest ih =>
    intro h hh
    simp only [enforceFrom] at hh
    split at hh
    · simp [← Option.some_inj.mp hh]
    · exact Nat.le_trans (ih h hh) (by simp)

theorem enforceFrom_converges (count : List Turn → Nat) (ceiling : Nat) (x : Turn)
    (hx : count [x] ≤ ceiling) :
    ∀ rest : List Turn, ∃ h,
      enforceFrom count ceiling x rest = some h ∧ count h ≤ ceiling := by
  intro rest
  induction rest with
  | nil => exact ⟨[x], by simp [enforceFrom, hx], hx⟩
  | cons y rest ih =>
    by_cases hc : count (x :: y :: rest) ≤ ceiling
    · exact ⟨x :: y :: rest, by simp [enforceFrom, hc], hc⟩
    · obtain ⟨h, hh, hcount⟩ := ih
      exact ⟨h, by simp [enforceFrom, hc, hh], hcount⟩

/-- Total UTF-8 byte length of a character list; this is what the Rust
method str::len returns on the corresponding string. -/
def utf8Len (l : List Char) : Nat := (l.map Char.utf8Size).sum

/-- Fuel-driven core of slice::chunks with chunk size m + 1 (main.rs
lines 369 to 374 collect the chars and chunk them).  The fuel only
bounds the recursion; with fuel at least the list length (as in
listChunks) the zero-fuel branch on a nonempty list is never reached,
because every step consumes at least one element. -/
def chunksAux (m : Nat) : Nat → List Char → List (List Char)
  | _, [] => []
  | 0, _ :: _ => []
  | fuel + 1, x :: xs => (x :: xs.take m) :: chunksAux m fuel (xs.drop m)

/-- slice::chunks with chunk size n: consecutive runs of n elements, the
last one possibly shorter.  Rust panics on chunk size 0; that case is
unused here (all theorems assume n at least 1). -/
def listChunks (n : Nat) (l : List Char) : List (List Char) :=
  match n with
  | 0 => []
  | m + 1 => chunksAux m l.length l

/-- Output chunking of main.rs lines 368 to 380, with the fixed constant
generalized to a parameter: when the UTF-8 byte length of the text
exceeds the limit the char sequence is chunked, otherwise the text is
emitted as a single message. -/
def chunkOutput (maxLen : Nat) (text : List Char) : List (List Char) :=
  if maxLen < utf8Len text then listChunks maxLen text else [text]

theorem chunksAux_nil (m fuel : Nat) : chunksAux m fuel [] = [] := by
  cases fuel <;> rfl

theorem chunksAux_join (m : Nat) :
    ∀ (fuel : Nat) (l : List Char), l.length ≤ fuel →
      (chunksAux m fuel l).join = l := by
  intro fuel
  induction fuel with
  | zero =>
    intro l hl
    have : l = [] := List.length_eq_zero.mp (Nat.le_zero.mp hl)
    simp [this, chunksAux]
  | succ fuel ih =>
    intro l hl
    match l with
    | [] => simp [chunksAux]
    | x :: xs =>
      have hxs : (xs.drop m).length ≤ fuel := by
        simp only [List.length_drop]
        have : xs.length ≤ fuel := by simpa using hl
        omega
      simp [chunksAux, ih (xs.drop m) hxs, List.take_append_drop]

theorem chunksAux_length_le (m : Nat) :
    ∀ (fuel : Nat) (l : List Char), l.length ≤ fuel →
      ∀ c ∈ chunksAux m fuel l, c.length ≤ m + 1 := by
  intro fuel
  induction fuel with
  | zero =>
    intro l hl
    have : l = [] := List.length_eq_zero.mp (Nat.le_zero.mp hl)
    simp [this, chunksAux]
  | succ fuel ih =>
    intro l hl c hc
    match l with
    | [] => simp [chunksAux] at hc
    | x :: xs =>
      simp only [chunksAux, List.mem_cons] at hc
      cases hc with
      | inl h =>
        subst h
        simp only [List.length_cons, List.length_take]
        omega
      | inr h =>
        have hxs : (xs.drop m).length ≤ fuel := by
          simp only [List.length_drop]
          have : xs.length ≤ fuel := by simpa using hl
          omega
        exact ih (xs.drop m) hxs c h

theorem chunksAux_dropLast_eq (m : Nat) :
    ∀ (fuel : Nat) (l : List Char), l.length ≤ fuel →
      ∀ c ∈ (chunksAux m fuel l).dropLast, c.length = m + 1 := by
  intro fuel
  induction fuel with
  | zero =>
    intro l hl
    have : l = [] := List.length_eq_zero.mp (Nat.le_zero.mp hl)
    simp [this, chunksAux]
  | succ fuel ih =>
    intro l hl c hc
    match l with
    | [] => simp [chunksAux] at hc
    | x :: xs =>
      simp only [chunksAux] at hc
      by_cases hrest : chunksAux m fuel (xs.drop m) = []
      · simp [hrest] at hc
      · have hxs : (xs.drop m).length ≤ fuel := by
          simp only [List.length_drop]
          have : xs.length ≤ fuel := by simpa using hl
          omega
        have hdrop : xs.drop m ≠ [] := by
          intro hd
          exact hrest (by simp [hd, chunksAux_nil])
        have hmlt : m < xs.length := by
          by_contra hle
          exact hdrop (List.drop_eq_nil_of_le (by omega))
        rw [List.dropLast_cons_of_ne_nil hrest, List.mem_cons] at hc
        cases hc with
        | inl h =>
          subst h
          simp only [List.length_cons, List.length_take]
          omega
        | inr h => exact ih (xs.drop m) hxs c h

theorem chunksAux_singleton (m : Nat) :
    ∀ (fuel : Nat) (l : List Char), l ≠ [] → l.length ≤ m + 1 →
      l.length ≤ fuel → chunksAux m fuel l = [l] := by
  intro fuel
  induction fuel with
  | zero =>
    intro l hne hlm hl
    exact absurd (List.length_eq_zero.mp (Nat.le_zero.mp hl)) hne
  | succ fuel ih =>
    intro l hne hlm hl
    match l with
    | [] => exact absurd rfl hne
    | x :: xs =>
      have hxs : xs.length ≤ m := by simpa using hlm
      simp [chunksAux, List.take_of_length_le hxs,
        List.drop_eq_nil_of_le hxs, chunksAux_nil]

theorem length_le_utf8Len (l : List Char) : l.length ≤ utf8Len l := by
  induction l with
  | nil => simp [utf8Len]
  | cons c cs ih =>
    have hc : 0 < c.utf8Size := Char.utf8Size_pos c
    simp only [utf8Len, List.map_cons, List.sum_cons, List.length_cons] at ih ⊢
    omega

/-- Reply cleanup of main.rs lines 348 to 353 (identical at lines 451 to
456): if the text starts with a double quote the first character is
dropped (text gets the slice from byte 1), then, if the result ends with
a double quote, the code keeps the slice up to byte 1, that is only the
first character.  The byte slices are modelled on chars; the Rust code
would additionally panic when byte 1 is not a char boundary, which does
not occur on the inputs considered here. -/
def stripQuotes (text : List Char) : List Char :=
  let t :=
    match text with
    | c :: rest => if c == '\"' then rest else text
    | [] => text
  match t.getLast? with
  | some c => if c == '\"' then t.take 1 else t
  | none => t

/-- Tests whether pat occurs at the head of s (helper for the replace
semantics of str::replace). -/
def leadsWith : List Char → List Char → Bool
  | [], _ => true
  | _ :: _, [] => false
  | p :: ps, c :: cs => p == c && leadsWith ps cs

/-- Fuel-driven left-to-right non-overlapping replacement, the semantics
of str::replace used by replace_emoji (main.rs line 157).  The fuel only
bounds recursion; replaceAll passes the text length, which suffices for
the nonempty patterns used. -/
def replaceAllAux (pat rep : List Char) : Nat → List Char → List Char
  | _, [] => []
  | 0, s => s
  | fuel + 1, c :: rest =>
    if leadsWith pat (c :: rest) then
      rep ++ replaceAllAux pat rep fuel ((c :: rest).drop pat.length)
    else c :: replaceAllAux pat rep fuel rest

/-- str::replace with a string pattern.  The empty-pattern case (where
Rust would insert rep at every boundary) never occurs here: every
pattern in EMOJI_REPLACEMENTS is nonempty. -/
def replaceAll (pat rep s : List Char) : List Char :=
  if pat = [] then s else replaceAllAux pat rep s.length s

/-- EMOJI_REPLACEMENTS table of main.rs lines 63 to 87. -/
def EMOJI_REPLACEMENTS : List (List Char × List Char) :=
  [ (str ":CLbox:", str "<:CLbox:1051203986964893736>"),
    (str ":clPog:", str "<:clPog:1004208874406039572>"),
    (str ":smugcat:", str "<:smugcat:889673525030420480>"),
    (str ":cathink:", str "<:cathink:889687946314272778>"),
    (str ":gmeow:", str "<:gmeow:1021027182383997010>"),
    (str ":clnom:", str "<:clnom:950943393045954570>"),
    (str ":blushycl:", str "<:blushycl:933644628090028032>"),
    (str ":yuepetcl:", str "<:yuepetcl:882811013739741184>"),
    (str ":clkms:", str "<:clkms:960796681283203113>"),
    (str ":evilmewn:", str "<:evilmewn:824967831510712330>"),
    (str ":HUH:", str "<a:HUH:1010570028195774524>"),
    (str ":MYAAA:", str "<a:MYAAA:1039322389294628946>"),
    (str ":clThonkSweat:", str "<a:clThonkSweat:993207609102450808>"),
    (str ":clThonkSweat2:", str "<a:clThonkSweat2:993207612361424919>"),
    (str ":cldance:", str "<a:cldance:872280682121019462>"),
    (str ":clhearts:", str "<a:clhearts:900513327606800395>"),
    (str ":petcl:", str "<a:petcl:1053242378359689256>"),
    (str ":petloom:", str "<a:petloom:837695455264636969>"),
    (str ":petmewny:", str "<a:petmewny:828632539367342140>"),
    (str ":upsidedownmewny:", str "<a:upsidedownmewny:854905684625326092>") ]

/-- replace_emoji from main.rs lines 155 to 161: apply every table entry
in order with str::replace. -/
def replace_emoji (message : List Char) : List Char :=
  EMOJI_REPLACEMENTS.foldl (fun m pr => replaceAll pr.1 pr.2 m) message

/-- Success formatting of main.rs line 363 (identical at line 466): the
quoted block with the original message and the author reference,
followed by the reply text. -/
def formatReply (message authorDisp text : List Char) : List Char :=
  str "> **" ++ message ++ str "** - <" ++ authorDisp ++ str "> \n\n" ++ text

/-- Fallback text of main.rs lines 384 to 389 (identical at lines 487 to
492): the fixed templated message shown when dispatch fails. -/
def fallbackText (message authorDisp : List Char) : List Char :=
  str "> **" ++ message ++ str "** - <" ++ authorDisp ++
    str "> \n\nSomething went wrong, please try again later."

/-- Observable outcome of one exchange: the history left in the store
and the sequence of messages said to the channel, in order. -/
structure Outcome where
  history : List Turn
  said : List (List Char)
deriving DecidableEq

/-- Result of one exchange: either the task panicked (out-of-bounds
removal or indexing, unwrap of a missing field) or it completed with an
outcome. -/
inductive FlowResult where
  | panicked
  | completed (o : Outcome)
deriving DecidableEq

/-- Core of the chat command (main.rs lines 293 to 393): append the user
turn carrying the sanitized author name, run budget enforcement, then
dispatch.  The dispatch result dres is none for a transport or provider
error (the Err arm) and some choices for a response, where each choice
carries its optional message content.  On a response the code indexes
choices at 0 (panics when the list is empty), unwraps the content
(panics when it is none), strips quotes, appends the assistant turn,
formats, substitutes emoji shortcodes and chunks the output.  On an
error the fixed fallback line is said and the history keeps only the
dangling user turn. -/
def chatFlow (count : List Turn → Nat) (ceiling : Nat)
    (message authorName authorDisp : List Char) (hist : List Turn)
    (dres : Option (List (Option (List Char)))) : FlowResult :=
  let hist1 := hist ++ [Turn.mk Role.user message (some (sanitize_input authorName))]
  match enforceLoop count ceiling hist1 with
  | none => FlowResult.panicked
  | some hist2 =>
    match dres with
    | none => FlowResult.completed (Outcome.mk hist2 [fallbackText message authorDisp])
    | some choices =>
      match choices with
      | [] => FlowResult.panicked
      | choice :: _ =>
        match choice with
        | none => FlowResult.panicked
        | some raw =>
          let text := stripQuotes raw
          let hist3 := hist2 ++ [Turn.mk Role.assistant text none]
          let formatted := replace_emoji (formatReply message authorDisp text)
          FlowResult.completed (Outcome.mk hist3 (chunkOutput DISCORD_CHAR_LIMIT formatted))

/-- Core of the mistral command (main.rs lines 397 to 496): the same
steps as chatFlow except that the appended user turn carries no author
name (the builder at lines 406 to 411 never sets the name field).  The
authorName argument is received, as the handler has access to it, but
unused. -/
def mistralFlow (count : List Turn → Nat) (ceiling : Nat)
    (message _authorName authorDisp : List Char) (hist : List Turn)
    (dres : Option (List (Option (List Char)))) : FlowResult :=
  let hist1 := hist ++ [Turn.mk Role.user message none]
  match enforceLoop count ceiling hist1 with
  | none => FlowResult.panicked
  | some hist2 =>
    match dres with
    | none => FlowResult.completed (Outcome.mk hist2 [fallbackText message authorDisp])
    | some choices =>
      match choices with
      | [] => FlowResult.panicked
      | choice :: _ =>
        match choice with
        | none => FlowResult.panicked
        | some raw =>
          let text := stripQuotes raw
          let hist3 := hist2 ++ [Turn.mk Role.assistant text none]
          let formatted := replace_emoji (formatReply message authorDisp text)
          FlowResult.completed (Outcome.mk hist3 (chunkOutput DISCORD_CHAR_LIMIT formatted))

/-- Provider-generic exchange, following the spec description of a
single core flow parameterized by the provider: identical to the two
flows above except that the author name attached to the appended user
turn is an explicit parameter uname. -/
def genericFlow (uname : Option (List Char)) (count : List Turn → Nat) (ceiling : Nat)
    (message authorDisp : List Char) (hist : List Turn)
    (dres : Option (List (Option (List Char)))) : FlowResult :=
  let hist1 := hist ++ [Turn.mk Role.user message uname]
  match enforceLoop count ceiling hist1 with
  | none => FlowResult.panicked
  | some hist2 =>
    match dres with
    | none => FlowResult.completed (Outcome.mk hist2 [fallbackText message authorDisp])
    | some choices =>
      match choices with
      | [] => FlowResult.panicked
      | choice :: _ =>
        match choice with
        | none => FlowResult.panicked
        | some raw =>
          let text := stripQuotes raw
          let hist3 := hist2 ++ [Turn.mk Role.assistant text none]
          let formatted := replace_emoji (formatReply message authorDisp text)
          FlowResult.completed (Outcome.mk hist3 (chunkOutput DISCORD_CHAR_LIMIT formatted))

/-- Operations that mutate a provider history across the whole program:
user-turn appends and the eviction loop of chat and mistral, assistant
appends on success, and the reset of bonk and bonk_mistral. -/
inductive HistOp where
  | appendUser (message : List Char) (authorName : Option (List Char))
  | evict
  | appendAssistant (text : List Char)
  | reset
deriving DecidableEq

/-- One history mutation.  Eviction is history.remove(1) (main.rs line
323); on a history shorter than 2 that call panics before mutating, so
the store is left unchanged.  Reset is history.truncate(1) (main.rs
lines 502 and 514). -/
def applyOp (h : List Turn) : HistOp → List Turn
  | HistOp.appendUser m an => h ++ [Turn.mk Role.user m (an.map sanitize_input)]
  | HistOp.evict =>
    match h with
    | x :: _ :: rest => x :: rest
    | _ => h
  | HistOp.appendAssistant t => h ++ [Turn.mk Role.assistant t none]
  | HistOp.reset => h.take 1

/-- Runs a sequence of history operations from an initial store. -/
def runOps (init : List Turn) (ops : List HistOp) : List Turn :=
  ops.foldl applyOp init

theorem enforceLoop_length (count : List Turn → Nat) (ceiling : Nat)
    (l h : List Turn) (hh : enforceLoop count ceiling l = some h) :
    h.length ≤ l.length := by
  cases l with
  | nil =>
    simp only [enforceLoop] at hh
    split at hh
    · simp [← Option.some_inj.mp hh]
    · exact absurd hh (by simp)
  | cons x rest =>
    simpa using enforceFrom_length count ceiling x rest h hh

/-- C1: for every abstract serialize-and-count function, every ceiling,
every pinned first turn whose singleton history counts within the
ceiling, and every sequence of turns appended after it, the
budget-enforcement loop exits without hitting the removal panic and
leaves a history whose serialized token count is at most the ceiling. -/
theorem C1_budget_convergence (count : List Turn → Nat) (ceiling : Nat) (sys : Turn)
    (rest : List Turn) (hsys : count [sys] ≤ ceiling) :
    ∃ h, enforceLoop count ceiling (sys :: rest) = some h ∧ count h ≤ ceiling := by
  simpa [enforceLoop] using enforceFrom_converges count ceiling sys hsys rest

/-- C1 witness: concrete instance with the length function as the count,
ceiling 1, and one appended user turn. -/
theorem C1_budget_convergence_witness :
    List.length ([Turn.mk Role.system (str "s") none] : List Turn) ≤ 1 ∧
    ∃ h, enforceLoop List.length 1
        (Turn.mk Role.system (str "s") none :: [Turn.mk Role.user (str "u") none]) = some h ∧
      List.length h ≤ 1 :=
  ⟨by decide, C1_budget_convergence List.length 1 (Turn.mk Role.system (str "s") none)
    [Turn.mk Role.user (str "u") none] (by decide)⟩

theorem applyOp_head (sys : Turn) (h : List Turn) (op : HistOp)
    (hh : h.head? = some sys) : (applyOp h op).head? = some sys := by
  cases op with
  | appendUser m an =>
    cases h with
    | nil => simp at hh
    | cons x r => simpa [applyOp] using hh
  | evict =>
    cases h with
    | nil => simp at hh
    | cons x r =>
      cases r with
      | nil => simpa [applyOp] using hh
      | cons y r2 => simpa [applyOp] using hh
  | appendAssistant t =>
    cases h with
    | nil => simp at hh
    | cons x r => simpa [applyOp] using hh
  | reset =>
    cases h with
    | nil => simp at hh
    | cons x r => simpa [applyOp] using hh

/-- C2: for every sequence of history operations (user appends, budget
evictions, assistant appends, resets) applied to the store created at
startup with the system turn, the element at index 0 is still that
system turn. -/
theorem C2_pin_invariant (sys : Turn) (ops : List HistOp) :
    (runOps [sys] ops).head? = some sys := by
  have key : ∀ (ops : List HistOp) (init : List Turn),
      init.head? = some sys → (List.foldl applyOp init ops).head? = some sys := by
    intro ops
    induction ops with
    | nil => intro init hi; simpa using hi
    | cons op rest ih =>
      intro init hi
      exact ih (applyOp init op) (applyOp_head sys init op hi)
  simpa [runOps] using key ops [sys] rfl

/-- C3: evaluation of the reply cleanup at the quoted reply "ab" (with
literal surrounding quotation marks).  The cleanup at main.rs line 352
assigns the slice up to index 1 instead of dropping the final character,
so the quoted reply collapses to the single character a rather than the
intended ab. -/
theorem C3_quote_strip_truncates :
    stripQuotes (str "\"ab\"") = str "a" ∧ stripQuotes (str "\"ab\"") ≠ str "ab" := by
  decide

/-- C4: for every text and every chunk limit at least 1, the output
chunking concatenates back to the original text, every chunk is at most
the limit, every chunk except possibly the last is exactly the limit,
and a text with character length within the limit comes back as the
single-element sequence holding the text unchanged. -/
theorem C4_chunk_roundtrip (text : List Char) (n : Nat) (hn : 1 ≤ n) :
    (chunkOutput n text).join = text ∧
    (∀ c ∈ chunkOutput n text, c.length ≤ n) ∧
    (∀ c ∈ (chunkOutput n text).dropLast, c.length = n) ∧
    (text.length ≤ n → chunkOutput n text = [text]) := by
  obtain ⟨m, rfl⟩ : ∃ m, n = m + 1 := ⟨n - 1, by omega⟩
  by_cases hb : m + 1 < utf8Len text
  · have hco : chunkOutput (m + 1) text = chunksAux m text.length text := by
      rw [chunkOutput, if_pos hb]; rfl
    have hne : text ≠ [] := by
      intro h
      subst h
      simp [utf8Len] at hb
    refine ⟨?_, ?_, ?_, ?_⟩
    · rw [hco]
      exact chunksAux_join m text.length text le_rfl
    · intro c hc
      rw [hco] at hc
      exact chunksAux_length_le m text.length text le_rfl c hc
    · intro c hc
      rw [hco] at hc
      exact chunksAux_dropLast_eq m text.length text le_rfl c hc
    · intro hlen
      rw [hco]
      exact chunksAux_singleton m text.length text hne hlen le_rfl
  · have hco : chunkOutput (m + 1) text = [text] := by
      rw [chunkOutput, if_neg hb]
    refine ⟨?_, ?_, ?_, fun _ => hco⟩
    · simp [hco]
    · intro c hc
      rw [hco, List.mem_singleton] at hc
      subst hc
      exact le_trans (length_le_utf8Len c) (by omega)
    · simp [hco]

/-- C4 witness: concrete instance at the three-character text abc with
limit 2, which chunks into ab and c. -/
theorem C4_chunk_roundtrip_witness :
    (1 : Nat) ≤ 2 ∧
    ((chunkOutput 2 (str "abc")).join = str "abc" ∧
     (∀ c ∈ chunkOutput 2 (str "abc"), c.length ≤ 2) ∧
     (∀ c ∈ (chunkOutput 2 (str "abc")).dropLast, c.length = 2) ∧
     ((str "abc").length ≤ 2 → chunkOutput 2 (str "abc") = [str "abc"])) :=
  ⟨by decide, C4_chunk_roundtrip (str "abc") 2 (by decide)⟩

/-- C5: evaluation of the enforcement loop on a history holding only the
pinned system turn while the count still exceeds the ceiling (count
constantly 5, ceiling 3).  The loop body executes history.remove(1) on a
length-1 vector, which is an out-of-bounds panic (modelled by none), not
a distinct ceiling-too-small error value. -/
theorem C5_ceiling_too_small_panics :
    enforceLoop (fun _ => 5) 3 [Turn.mk Role.system (str "s") none] = none := by
  decide

/-- C6 counterexample: a failed dispatch after the budget enforcement
evicted one turn.  Pre-call history has two turns; the exchange appends
the user turn (three turns, count 6 over ceiling 5), eviction removes
the turn at index 1, dispatch fails, and the final history has length 2,
not the pre-call length plus 1 (which is 3). -/
theorem C6_failure_length_cex :
    chatFlow (fun l => 2 * l.length) 5 (str "m") (str "bob") (str "B")
        [Turn.mk Role.system (str "s") none, Turn.mk Role.user (str "old") none] none
      = FlowResult.completed (Outcome.mk
          [Turn.mk Role.system (str "s") none,
           Turn.mk Role.user (str "m") (some (str "bob"))]
          [fallbackText (str "m") (str "B")]) ∧
    ([Turn.mk Role.system (str "s") none,
      Turn.mk Role.user (str "m") (some (str "bob"))] : List Turn).length ≠
      ([Turn.mk Role.system (str "s") none,
        Turn.mk Role.user (str "old") none] : List Turn).length + 1 := by
  decide

/-- C6 amended, for both providers: on a dispatch failure no assistant
turn is appended and the caller receives the fixed fallback message; the
resulting history is exactly the budget-enforced value of the pre-call
history plus the appended user turn (carrying the sanitized author name
on the primary flow, no name on the alternate flow), so its length is at
most the pre-call length plus 1 (equal when enforcement evicts nothing,
smaller when it evicts). -/
theorem C6_failure_non_mutation (count : List Turn → Nat) (ceiling : Nat)
    (message authorName authorDisp : List Char) (histc histm hc hm : List Turn)
    (henfc : enforceLoop count ceiling
        (histc ++ [Turn.mk Role.user message (some (sanitize_input authorName))]) = some hc)
    (henfm : enforceLoop count ceiling
        (histm ++ [Turn.mk Role.user message none]) = some hm) :
    (chatFlow count ceiling message authorName authorDisp histc none
      = FlowResult.completed (Outcome.mk hc [fallbackText message authorDisp]) ∧
     hc.length ≤ histc.length + 1) ∧
    (mistralFlow count ceiling message authorName authorDisp histm none
      = FlowResult.completed (Outcome.mk hm [fallbackText message authorDisp]) ∧
     hm.length ≤ histm.length + 1) := by
  refine ⟨⟨?_, ?_⟩, ?_, ?_⟩
  · simp [chatFlow, henfc]
  · have := enforceLoop_length count ceiling
      (histc ++ [Turn.mk Role.user message (some (sanitize_input authorName))]) hc henfc
    simpa using this
  · simp [mistralFlow, henfm]
  · have := enforceLoop_length count ceiling
      (histm ++ [Turn.mk Role.user message none]) hm henfm
    simpa using this

/-- C6 witness: concrete failed exchange without eviction on each
provider, where the history grows by exactly the user turn and the
fallback is said. -/
theorem C6_failure_non_mutation_witness :
    enforceLoop List.length 9 ([Turn.mk Role.system (str "s") none] ++
        [Turn.mk Role.user (str "m") (some (sanitize_input (str "bob")))]) =
      some [Turn.mk Role.system (str "s") none,
            Turn.mk Role.user (str "m") (some (sanitize_input (str "bob")))] ∧
    enforceLoop List.length 9 ([Turn.mk Role.system (str "s") none] ++
        [Turn.mk Role.user (str "m") none]) =
      some [Turn.mk Role.system (str "s") none,
            Turn.mk Role.user (str "m") none] ∧
    ((chatFlow List.length 9 (str "m") (str "bob") (str "B")
        [Turn.mk Role.system (str "s") none] none
      = FlowResult.completed (Outcome.mk
          [Turn.mk Role.system (str "s") none,
           Turn.mk Role.user (str "m") (some (sanitize_input (str "bob")))]
          [fallbackText (str "m") (str "B")]) ∧
      ([Turn.mk Role.system (str "s") none,
        Turn.mk Role.user (str "m") (some (sanitize_input (str "bob")))] : List Turn).length ≤
        ([Turn.mk Role.system (str "s") none] : List Turn).length + 1) ∧
     (mistralFlow List.length 9 (str "m") (str "bob") (str "B")
        [Turn.mk Role.system (str "s") none] none
      = FlowResult.completed (Outcome.mk
          [Turn.mk Role.system (str "s") none,
           Turn.mk Role.user (str "m") none]
          [fallbackText (str "m") (str "B")]) ∧
      ([Turn.mk Role.system (str "s") none,
        Turn.mk Role.user (str "m") none] : List Turn).length ≤
        ([Turn.mk Role.system (str "s") none] : List Turn).length + 1)) :=
  ⟨by decide, by decide,
    C6_failure_non_mutation List.length 9 (str "m") (str "bob") (str "B")
      [Turn.mk Role.system (str "s") none] [Turn.mk Role.system (str "s") none]
      [Turn.mk Role.system (str "s") none,
       Turn.mk Role.user (str "m") (some (sanitize_input (str "bob")))]
      [Turn.mk Role.system (str "s") none, Turn.mk Role.user (str "m") none]
      (by decide) (by decide)⟩

/-- C7: evaluation of the request path at a provider response with an
empty choices array and at one whose first choice has no message
content.  Both evaluate to a task panic (indexing choices at 0,
respectively unwrap of a none content at main.rs line 346), not to a
recoverable typed error. -/
theorem C7_request_path_panics :
    chatFlow List.length 9 (str "m") (str "bob") (str "B")
        [Turn.mk Role.system (str "s") none] (some []) = FlowResult.panicked ∧
    chatFlow List.length 9 (str "m") (str "bob") (str "B")
        [Turn.mk Role.system (str "s") none] (some [none]) = FlowResult.panicked := by
  decide

/-- C8 counterexample: two author names whose sanitized form does not
satisfy the pattern, falsifying the final conjunct of the claim: a
65-character run of allowed characters is returned unchanged and is too
long, and a name of only disallowed characters sanitizes to the empty
string, which is below the minimum length. -/
theorem C8_sanitized_pattern_cex :
    matchesNamePattern (sanitize_input (List.replicate 65 'a')) = false ∧
    matchesNamePattern (sanitize_input (str "!!")) = false := by
  decide

/-- C8 amended: sanitization returns a pattern-matching name unchanged
and otherwise removes exactly the disallowed characters, preserving the
allowed ones in order (it always equals the allowed-character filter of
the input); every character of the result is allowed, though the result
itself may be empty or longer than 64 characters and hence need not
match the pattern. -/
theorem C8_sanitize_amended (s : List Char) :
    sanitize_input s = s.filter isAllowedChar ∧
    (∀ c ∈ sanitize_input s, isAllowedChar c = true) ∧
    (matchesNamePattern s = true → sanitize_input s = s) := by
  have hfilter : sanitize_input s = s.filter isAllowedChar := by
    rw [sanitize_input]
    split
    · next h =>
      have hall : ∀ c ∈ s, isAllowedChar c := by
        simp only [matchesNamePattern, Bool.and_eq_true, List.all_eq_true] at h
        exact h.2
      exact (List.filter_eq_self.mpr hall).symm
    · rfl
  refine ⟨hfilter, ?_, fun h => by rw [sanitize_input, if_pos h]⟩
  intro c hc
  rw [hfilter] at hc
  exact (List.mem_filter.mp hc).2

/-- C8 witness: a pattern-matching name is returned unchanged. -/
theorem C8_sanitize_amended_witness :
    matchesNamePattern (str "bob") = true ∧ sanitize_input (str "bob") = str "bob" :=
  ⟨by decide, (C8_sanitize_amended (str "bob")).2.2 (by decide)⟩

/-- C9 counterexample: the two provider flows given the same message,
author, history and dispatch result produce different outcomes, because
only the primary flow attaches the sanitized author name to the
appended user turn. -/
theorem C9_flows_differ :
    chatFlow List.length 9 (str "hi") (str "bob") (str "B")
        [Turn.mk Role.system (str "s") none] none ≠
      mistralFlow List.length 9 (str "hi") (str "bob") (str "B")
        [Turn.mk Role.system (str "s") none] none := by
  decide

/-- C9 amended: both flows are instances of one core flow parameterized
by the provider configuration together with the author-name policy of
the appended user turn: the primary flow attaches the sanitized author
name, the alternate flow attaches none, and every later step
(enforcement, cleanup, assistant append, formatting, emoji substitution,
chunking, fallback) is identical. -/
theorem C9_single_core_flow (count : List Turn → Nat) (ceiling : Nat)
    (message authorName authorDisp : List Char) (hist : List Turn)
    (dres : Option (List (Option (List Char)))) :
    chatFlow count ceiling message authorName authorDisp hist dres =
      genericFlow (some (sanitize_input authorName)) count ceiling message authorDisp hist dres ∧
    mistralFlow count ceiling message authorName authorDisp hist dres =
      genericFlow none count ceiling message authorDisp hist dres :=
  ⟨rfl, rfl⟩
